import Mathlib

/-!
Verification of the JSON reader ingestion/normalization pipeline
(`cpp/src/io/json/read_json.hpp` and its associated tests).

The development shallowly embeds the C++ code: `size_t` values are `Nat`
with explicit wraparound (`sub64`, `add64`) at the arithmetic sites where
the C++ code can underflow or overflow, byte buffers are `List Nat`, and
the external collaborators (the decompression primitive and the size
estimator of `io/comp/io_uncomp.hpp`, which are outside this source set)
are passed in as oracle values.
-/

namespace CudfJsonRead

/-- The `cudf::io::compression_type` enumeration tags used by this code. -/
inductive compression_type
  | NONE
  | AUTO
  | SNAPPY
  | GZIP
  | BZIP2
  | BROTLI
  | ZIP
  | XZ
  | ZLIB
  | LZ4
  | LZO
  | ZSTD
  deriving DecidableEq, Repr

/-- `constexpr int num_subchunks = 10` (read_json.hpp:37). -/
def num_subchunks : Nat := 10

/-- `constexpr size_t min_subchunk_size = 10000` (read_json.hpp:38). -/
def min_subchunk_size : Nat := 10000

/-- `constexpr int estimated_compression_ratio = 4` (read_json.hpp:39). -/
def estimated_compression_ratio : Nat := 4

/-- `constexpr int max_subchunks_prealloced = 3` (read_json.hpp:40). -/
def max_subchunks_prealloced : Nat := 3

/-- C++ `size_t` subtraction `a - b`: wraps modulo 2^64 on underflow. -/
def sub64 (a b : Nat) : Nat := (2 ^ 64 + a - b) % 2 ^ 64

/-- C++ `size_t` addition `a + b`: wraps modulo 2^64 on overflow. -/
def add64 (a b : Nat) : Nat := (a + b) % 2 ^ 64

/-- The condition of read_json.hpp:84-85: the compression kinds whose
uncompressed size is estimated rather than computed by eager decompression. -/
def isRatioEstimable (t : compression_type) : Prop :=
  t = compression_type.GZIP ∨ t = compression_type.ZIP ∨ t = compression_type.SNAPPY

instance (t : compression_type) : Decidable (isRatioEstimable t) := by
  unfold isRatioEstimable; infer_instance

/-- Modelled from the spec: `estimate_uncompressed_size` lives in
`cpp/src/io/comp/io_uncomp.hpp`, which is not part of this source set.  The
spec describes it as "a fixed heuristic multiplier (e.g., ×4) applied to the
compressed size, without decompressing"; the multiplier is the source constant
`estimated_compression_ratio`. -/
def estimate_uncompressed_size (chBuffer : List Nat) : Nat :=
  estimated_compression_ratio * chBuffer.length

/-- State of a `compressed_host_buffer_source` (read_json.hpp:78-126).
`_ch_buffer` is the non-owning view of the compressed host data,
`_decompressed_ch_buffer_size` the value returned by `size()`, and
`_decompressed_buffer` the lazily materialized decompressed bytes. -/
structure compressed_host_buffer_source where
  ch_buffer : List Nat
  comptype : compression_type
  decompressed_ch_buffer_size : Nat
  decompressed_buffer : List Nat
  deriving DecidableEq, Repr

/-- Constructor (read_json.hpp:80-92).  The external decompression primitive
is an oracle: `dec` is the byte list `decompress(_comptype, _ch_buffer)`
produces.  The second component counts how many times the constructor invoked
the decompression primitive (0 = materialization deferred, 1 = eager). -/
def mkSource (chBuffer : List Nat) (comptype : compression_type) (dec : List Nat) :
    compressed_host_buffer_source × Nat :=
  if isRatioEstimable comptype then
    ({ ch_buffer := chBuffer
       comptype := comptype
       decompressed_ch_buffer_size := estimate_uncompressed_size chBuffer
       decompressed_buffer := [] }, 0)
  else
    ({ ch_buffer := chBuffer
       comptype := comptype
       decompressed_ch_buffer_size := dec.length
       decompressed_buffer := dec }, 1)

/-- `size()` (read_json.hpp:119). -/
def compressed_host_buffer_source.size (s : compressed_host_buffer_source) : Nat :=
  s.decompressed_ch_buffer_size

/-- `supports_device_read()` (read_json.hpp:117). -/
def compressed_host_buffer_source.supports_device_read
    (_s : compressed_host_buffer_source) : Bool :=
  false

/-- Result of the raw-pointer overload `host_read(offset, size, dst)`:
the returned byte count, the bytes copied to `dst`, and the number of
invocations of the decompression primitive during the call. -/
structure PtrReadResult where
  count : Nat
  dst : List Nat
  decompressCalls : Nat
  deriving DecidableEq, Repr

/-- `host_read(size_t offset, size_t size, uint8_t* dst)` (read_json.hpp:94-100).
It decompresses unconditionally, clamps with the `size_t` expression
`min(size, decompressed_hbuf.size() - offset)` (which wraps when
`offset > decompressed_hbuf.size()`), and copies `count` bytes from
`decompressed_hbuf.data() + offset`.  The state is not modified. -/
def compressed_host_buffer_source.host_read_ptr
    (_s : compressed_host_buffer_source) (dec : List Nat) (offset size : Nat) :
    PtrReadResult :=
  let count := min size (sub64 dec.length offset)
  { count := count
    dst := (dec.drop offset).take count
    decompressCalls := 1 }

/-- Result of the buffer-returning overload `host_read(offset, size)`:
the bytes of the returned `datasource::buffer`, whether that buffer owns its
storage (`owning_buffer`, true) or is a view into the cached vector
(`non_owning_buffer`, false), and the number of decompression invocations. -/
structure BufReadResult where
  data : List Nat
  owning : Bool
  decompressCalls : Nat
  deriving DecidableEq, Repr

/-- `host_read(size_t offset, size_t size)` (read_json.hpp:102-115).
If `_decompressed_buffer` is empty, decompress once; when
`offset + count` reaches the end of the decompressed bytes
(`!partial_read`), hand the whole decompressed vector to the caller as an
`owning_buffer` and leave the cache empty; otherwise store the decompressed
vector in `_decompressed_buffer` and fall through.  Outside the empty case
the call serves a `non_owning_buffer` view of the cached vector. -/
def compressed_host_buffer_source.host_read_buf
    (s : compressed_host_buffer_source) (dec : List Nat) (offset size : Nat) :
    BufReadResult × compressed_host_buffer_source :=
  if s.decompressed_buffer.isEmpty then
    let hbuf := dec
    let count := min size (sub64 hbuf.length offset)
    if hbuf.length ≤ add64 offset count then
      ({ data := (hbuf.drop offset).take count
         owning := true
         decompressCalls := 1 }, s)
    else
      let s' := { s with decompressed_buffer := hbuf }
      let count' := min size (sub64 s'.decompressed_buffer.length offset)
      ({ data := (s'.decompressed_buffer.drop offset).take count'
         owning := false
         decompressCalls := 1 }, s')
  else
    let count := min size (sub64 s.decompressed_buffer.length offset)
    ({ data := (s.decompressed_buffer.drop offset).take count
       owning := false
       decompressCalls := 0 }, s)

/-! ### Quote normalization transducer

`cudf::io::json::detail::normalize_quotes` is exercised by
`cpp/tests/io/json_quote_normalization_test.cpp` but its implementation is not
part of this source set; it is modelled from the spec (§4.5). -/

/-- The five transducer states of the spec (§4.5). -/
inductive FstState
  | outsideString
  | insideDouble
  | insideSingle
  | escapeInDouble
  | escapeInSingle
  deriving DecidableEq, Repr

/-- ASCII double quote. -/
def dquoteByte : Nat := 34

/-- ASCII single quote. -/
def squoteByte : Nat := 39

/-- ASCII backslash. -/
def backslashByte : Nat := 92

/-- Modelled from the spec: one transducer transition (§4.5).  An unescaped
single quote toggles between Outside-string and Inside-single-quoted, emitting
a double quote; an unescaped double quote while Inside-single-quoted is
emitted escaped; a backslash inside either quoted state moves to the owning
Escape-pending state and is emitted verbatim; any byte in an Escape-pending
state is emitted verbatim and returns to the owning quoted state; all other
bytes are emitted unchanged (a double quote while Outside-string enters
Inside-double-quoted, and one while Inside-double-quoted exits it). -/
def fstStep : FstState → Nat → FstState × List Nat
  | FstState.outsideString, c =>
      if c = squoteByte then (FstState.insideSingle, [dquoteByte])
      else if c = dquoteByte then (FstState.insideDouble, [c])
      else (FstState.outsideString, [c])
  | FstState.insideDouble, c =>
      if c = dquoteByte then (FstState.outsideString, [c])
      else if c = backslashByte then (FstState.escapeInDouble, [c])
      else (FstState.insideDouble, [c])
  | FstState.insideSingle, c =>
      if c = squoteByte then (FstState.outsideString, [dquoteByte])
      else if c = dquoteByte then (FstState.insideSingle, [backslashByte, dquoteByte])
      else if c = backslashByte then (FstState.escapeInSingle, [c])
      else (FstState.insideSingle, [c])
  | FstState.escapeInDouble, c => (FstState.insideDouble, [c])
  | FstState.escapeInSingle, c => (FstState.insideSingle, [c])

/-- Run the transducer from a given state over a byte list, concatenating the
emitted bytes. -/
def fstRun (st : FstState) : List Nat → List Nat
  | [] => []
  | c :: cs => (fstStep st c).2 ++ fstRun (fstStep st c).1 cs

/-- Modelled from the spec: `normalize_quotes` (§4.5), run from the initial
state Outside-string over the whole buffer. -/
def normalize_quotes (input : List Nat) : List Nat :=
  fstRun FstState.outsideString input

/-! ### Raw ingestion

`ingest_raw_input` is declared in read_json.hpp:56-61 with its doc comment,
but its implementation (`read_json.cu`) is not part of this source set; it is
modelled from the spec (§4.3). -/

/-- Modelled from the spec: the contribution of one source that occupies
logical positions `[start, start + src.length)` to the requested range
`[offset, endPos)`, followed by one record delimiter byte when the source's
end boundary falls strictly inside the requested range, followed by the
remaining sources' contributions. -/
def ingestAux (delim : Nat) : List (List Nat) → Nat → Nat → Nat → List Nat
  | [], _, _, _ => []
  | src :: rest, start, offset, endPos =>
      let sEnd := start + src.length
      let lo := max start offset
      let hi := min sEnd endPos
      let content := (src.drop (lo - start)).take (hi - lo)
      let boundary := if offset < sEnd ∧ sEnd < endPos then [delim] else []
      content ++ boundary ++ ingestAux delim rest sEnd offset endPos

/-- Modelled from the spec: `ingest_raw_input` (read_json.hpp:56-61, §4.3)
fills the target buffer with the bytes of the concatenation of all sources'
logical streams over `[range_offset, range_offset + range_size)`, inserting
one record delimiter byte immediately after the content contributed by each
source boundary that falls strictly inside the requested range, and returns
the filled sub-span (here: its byte list). -/
def ingest_raw_input (delim : Nat) (sources : List (List Nat))
    (range_offset range_size : Nat) : List Nat :=
  ingestAux delim sources 0 range_offset (range_offset + range_size)

/-- The logical end offsets of the sources, given the start offset of the
first one: the source boundaries of the concatenated logical stream. -/
def sourceEnds : List (List Nat) → Nat → List Nat
  | [], _ => []
  | src :: rest, start => (start + src.length) :: sourceEnds rest (start + src.length)

/-- The number of source boundaries falling strictly inside `(offset, endPos)`. -/
def countBoundaries (sources : List (List Nat)) (offset endPos : Nat) : Nat :=
  ((sourceEnds sources 0).filter fun b => decide (offset < b ∧ b < endPos)).length

/-! ### Helper lemmas -/

lemma sub64_eq {a b : Nat} (hba : b ≤ a) (ha : a < 2 ^ 64) : sub64 a b = a - b := by
  unfold sub64; omega

lemma add64_eq {a b : Nat} (h : a + b < 2 ^ 64) : add64 a b = a + b := by
  unfold add64; omega

/-- The transducer states reachable on an input with no single-quote byte. -/
def noSingleQuoteState (st : FstState) : Prop :=
  st = FstState.outsideString ∨ st = FstState.insideDouble ∨ st = FstState.escapeInDouble

lemma fstStep_no_squote {st : FstState} {c : Nat} (hst : noSingleQuoteState st)
    (hc : c ≠ squoteByte) :
    (fstStep st c).2 = [c] ∧ noSingleQuoteState (fstStep st c).1 := by
  rcases hst with h | h | h <;> subst h <;>
    simp only [fstStep, noSingleQuoteState] <;>
    first
      | (split_ifs <;> simp_all)
      | simp_all

lemma fstRun_no_squote (input : List Nat) :
    ∀ st, noSingleQuoteState st → (∀ c ∈ input, c ≠ squoteByte) →
      fstRun st input = input := by
  induction input with
  | nil => intro st _ _; rfl
  | cons c cs ih =>
    intro st hst hin
    obtain ⟨hemit, hnext⟩ := fstStep_no_squote hst (hin c (List.mem_cons_self c cs))
    rw [fstRun, hemit, ih _ hnext fun d hd => hin d (List.mem_cons_of_mem c hd)]
    rfl

lemma ingestAux_length (delim : Nat) (sources : List (List Nat)) :
    ∀ (start offset endPos : Nat),
      (ingestAux delim sources start offset endPos).length =
        (min endPos (start + sources.flatten.length) - max offset start) +
          ((sourceEnds sources start).filter
            fun b => decide (offset < b ∧ b < endPos)).length := by
  induction sources with
  | nil =>
    intro start offset endPos
    simp only [ingestAux, sourceEnds, List.flatten_nil, List.length_nil,
      List.filter_nil, Nat.add_zero]
    omega
  | cons src rest ih =>
    intro start offset endPos
    simp only [ingestAux, sourceEnds, List.flatten_cons, List.length_append,
      List.length_take, List.length_drop, List.filter_cons, decide_eq_true_eq, ih]
    split_ifs with hb <;>
      simp only [List.length_cons, List.length_nil] <;> omega

/-! ### Claim theorems -/

/-- C9: the batch planner's tuning constants (read_json.hpp:36-40) are exactly
minimum sub-chunk size 10,000 bytes, at most 10 sub-chunks per batch, and
device buffers pre-allocated for at most 3 sub-chunks concurrently. -/
theorem C9_tuning_constants :
    min_subchunk_size = 10000 ∧ num_subchunks = 10 ∧ max_subchunks_prealloced = 3 :=
  ⟨rfl, rfl, rfl⟩

/-- C6: running the quote-normalization transducer on the bytes of
`{"A":'TEST"'}` (123 34 65 34 58 39 84 69 83 84 34 39 125) produces exactly
the bytes of `{"A":"TEST\""}` (123 34 65 34 58 34 84 69 83 84 92 34 34 125):
the enclosing single quotes become double quotes and the embedded double
quote is emitted escaped. -/
theorem C6_quote_normalization_roundtrip :
    normalize_quotes [123, 34, 65, 34, 58, 39, 84, 69, 83, 84, 34, 39, 125] =
      [123, 34, 65, 34, 58, 34, 84, 69, 83, 84, 92, 34, 34, 125] := by
  decide

/-- C5: construction of a `compressed_host_buffer_source`
(read_json.hpp:80-92): for GZIP, ZIP and SNAPPY the reported size is the
heuristic estimate (multiplier 4 on the compressed size) computed with no
decompression call and the materialized buffer is left empty; for every other
kind decompression runs exactly once during construction and the reported
size is the exact decompressed length. -/
theorem C5_construction (ch dec : List Nat) (t : compression_type) :
    (isRatioEstimable t →
      (mkSource ch t dec).1.size = estimated_compression_ratio * ch.length ∧
      (mkSource ch t dec).1.decompressed_buffer = [] ∧
      (mkSource ch t dec).2 = 0) ∧
    (¬ isRatioEstimable t →
      (mkSource ch t dec).1.size = dec.length ∧
      (mkSource ch t dec).1.decompressed_buffer = dec ∧
      (mkSource ch t dec).2 = 1) := by
  constructor <;> intro h <;>
    simp [mkSource, h, compressed_host_buffer_source.size, estimate_uncompressed_size]

/-- Witness for C5 at concrete inputs: GZIP (ratio-estimable) and NONE
(eager), compressed bytes `[0]`, decompressed bytes `[5, 6]`. -/
theorem C5_construction_witness :
    (isRatioEstimable compression_type.GZIP ∧
      ((mkSource [0] compression_type.GZIP [5, 6]).1.size =
          estimated_compression_ratio * ([0] : List Nat).length ∧
        (mkSource [0] compression_type.GZIP [5, 6]).1.decompressed_buffer = [] ∧
        (mkSource [0] compression_type.GZIP [5, 6]).2 = 0)) ∧
    (¬ isRatioEstimable compression_type.NONE ∧
      ((mkSource [0] compression_type.NONE [5, 6]).1.size =
          ([5, 6] : List Nat).length ∧
        (mkSource [0] compression_type.NONE [5, 6]).1.decompressed_buffer = [5, 6] ∧
        (mkSource [0] compression_type.NONE [5, 6]).2 = 1)) :=
  ⟨⟨by decide, (C5_construction [0] [5, 6] compression_type.GZIP).1 (by decide)⟩,
   ⟨by decide, (C5_construction [0] [5, 6] compression_type.NONE).2 (by decide)⟩⟩

/-- C1 counterexample: the claim says a host_read with `offset ≤ size()`
returns fewer than `length` bytes only when `offset + length` exceeds
`size()`.  For a GZIP source over 3 compressed bytes (`size()` is the
estimate 12) whose decompression oracle yields 2 bytes, `host_read(0, 5)`
returns 2 < 5 bytes although `0 + 5 ≤ 12`: clamping is against the exact
decompressed length, not `size()`, so the claimed implication is false. -/
theorem C1_counterexample :
    ¬ ((((mkSource [0, 0, 0] compression_type.GZIP [7, 7]).1.host_read_ptr
            [7, 7] 0 5).count < 5 →
        (mkSource [0, 0, 0] compression_type.GZIP [7, 7]).1.size < 0 + 5)) := by
  decide

/-- C1 amended: neither host_read overload raises an out-of-range failure.
For every offset not exceeding the exact decompressed length — with the
materialized buffer either still empty or holding the decompressed content,
the only states the class reaches — both overloads return exactly
`min(length, decompressed_length - offset)` bytes, namely the decompressed
bytes starting at `offset`: the raw-pointer overload as its count and copied
bytes, the buffer-returning overload as its returned buffer.  The clamp is
against the exact decompressed length, not the possibly-estimated `size()`
(and for `offset` beyond the decompressed length the `size_t` subtractions at
read_json.hpp:97/106 wrap around instead of failing). -/
theorem C1_amended (s : compressed_host_buffer_source) (dec : List Nat)
    (offset length : Nat)
    (hinv : s.decompressed_buffer = [] ∨ s.decompressed_buffer = dec)
    (hlen : dec.length < 2 ^ 64) (hoff : offset ≤ dec.length) :
    ((s.host_read_ptr dec offset length).count = min length (dec.length - offset) ∧
      (s.host_read_ptr dec offset length).dst =
        (dec.drop offset).take (min length (dec.length - offset))) ∧
    (((s.host_read_buf dec offset length).1.data).length =
        min length (dec.length - offset) ∧
      (s.host_read_buf dec offset length).1.data =
        (dec.drop offset).take (min length (dec.length - offset))) := by
  have hsub := sub64_eq hoff hlen
  have hdata : (s.host_read_buf dec offset length).1.data =
      (dec.drop offset).take (min length (sub64 dec.length offset)) := by
    rcases hinv with he | hfull
    · simp only [compressed_host_buffer_source.host_read_buf, he]
      split_ifs <;> first | rfl | simp_all
    · simp only [compressed_host_buffer_source.host_read_buf, hfull]
      split_ifs <;> rfl
  refine ⟨?_, ?_, ?_⟩
  · simp [compressed_host_buffer_source.host_read_ptr, hsub]
  · rw [hdata, hsub]
    simp only [List.length_take, List.length_drop]
    omega
  · rw [hdata, hsub]

/-- Witness for C1 amended: GZIP source with empty cache, decompression
oracle `[7, 7]`, `host_read(1, 5)` through both overloads returns
`min 5 (2 - 1) = 1` byte. -/
theorem C1_amended_witness :
    (((mkSource [0, 0, 0] compression_type.GZIP [7, 7]).1).decompressed_buffer = [] ∨
      ((mkSource [0, 0, 0] compression_type.GZIP [7, 7]).1).decompressed_buffer = [7, 7]) ∧
    ([7, 7] : List Nat).length < 2 ^ 64 ∧ 1 ≤ ([7, 7] : List Nat).length ∧
      ((((mkSource [0, 0, 0] compression_type.GZIP [7, 7]).1.host_read_ptr
              [7, 7] 1 5).count = min 5 (([7, 7] : List Nat).length - 1) ∧
          ((mkSource [0, 0, 0] compression_type.GZIP [7, 7]).1.host_read_ptr
              [7, 7] 1 5).dst =
            (([7, 7] : List Nat).drop 1).take (min 5 (([7, 7] : List Nat).length - 1))) ∧
        ((((mkSource [0, 0, 0] compression_type.GZIP [7, 7]).1.host_read_buf
                [7, 7] 1 5).1.data).length = min 5 (([7, 7] : List Nat).length - 1) ∧
          ((mkSource [0, 0, 0] compression_type.GZIP [7, 7]).1.host_read_buf
              [7, 7] 1 5).1.data =
            (([7, 7] : List Nat).drop 1).take (min 5 (([7, 7] : List Nat).length - 1)))) :=
  ⟨by decide, by decide, by decide,
    C1_amended (mkSource [0, 0, 0] compression_type.GZIP [7, 7]).1 [7, 7] 1 5
      (by decide) (by decide) (by decide)⟩

/-- C2 counterexample: for a GZIP source over 2 compressed bytes (estimated
`size()` 8) whose decompression oracle yields 3 bytes, after one
buffer-returning `host_read(0, 3)` spanning the whole decompressed content,
`size()` still returns 8, not the exact decompressed length 3:
`_decompressed_ch_buffer_size` is never updated after construction
(read_json.hpp:102-119). -/
theorem C2_counterexample :
    ¬ ((((mkSource [0, 0] compression_type.GZIP [1, 2, 3]).1.host_read_buf
            [1, 2, 3] 0 3).2).size = ([1, 2, 3] : List Nat).length) := by
  decide

/-- C2 amended: for a ratio-estimable kind (GZIP, ZIP, SNAPPY), `size()`
returned before any read is the heuristic estimate (multiplier 4 applied to
the compressed size), and `size()` is never updated: any buffer-returning
`host_read` — including one spanning the whole decompressed content — leaves
`size()` unchanged. -/
theorem C2_amended (ch dec : List Nat) (t : compression_type)
    (h : isRatioEstimable t) (s : compressed_host_buffer_source)
    (dec2 : List Nat) (offset size : Nat) :
    (mkSource ch t dec).1.size = estimated_compression_ratio * ch.length ∧
    ((s.host_read_buf dec2 offset size).2).size = s.size := by
  constructor
  · simp [mkSource, h, compressed_host_buffer_source.size, estimate_uncompressed_size]
  · simp only [compressed_host_buffer_source.host_read_buf,
      compressed_host_buffer_source.size]
    split_ifs <;> rfl

/-- Witness for C2 amended: GZIP source over `[0, 0]`, oracle `[1, 2, 3]`,
followed by a full-content `host_read(0, 3)`. -/
theorem C2_amended_witness :
    isRatioEstimable compression_type.GZIP ∧
      ((mkSource [0, 0] compression_type.GZIP [1, 2, 3]).1.size =
          estimated_compression_ratio * ([0, 0] : List Nat).length ∧
        ((((mkSource [0, 0] compression_type.GZIP [1, 2, 3]).1).host_read_buf
              [1, 2, 3] 0 3).2).size =
          ((mkSource [0, 0] compression_type.GZIP [1, 2, 3]).1).size) :=
  ⟨by decide,
    C2_amended [0, 0] [1, 2, 3] compression_type.GZIP (by decide)
      (mkSource [0, 0] compression_type.GZIP [1, 2, 3]).1 [1, 2, 3] 0 3⟩

/-- C3 counterexample: for a GZIP source with no materialized buffer and
decompression oracle `[1, 2, 3]`, the buffer-returning `host_read(0, 2)`
requests a strict prefix of the decompressed result, yet the code returns a
non-owning view and caches the decompressed buffer — the claim has the two
branches of read_json.hpp:107-111 swapped. -/
theorem C3_counterexample :
    ¬ ((((mkSource [0, 0] compression_type.GZIP [1, 2, 3]).1.host_read_buf
            [1, 2, 3] 0 2).1).owning = true ∧
       (((mkSource [0, 0] compression_type.GZIP [1, 2, 3]).1.host_read_buf
            [1, 2, 3] 0 2).2).decompressed_buffer = []) := by
  decide

/-- C3 amended: on a source with no materialized buffer, the buffer-returning
`host_read` decompresses once and then: if the requested range reaches the
end of the decompressed result (`offset + count` is not short of its length —
`!partial_read`), ownership of the decompressed bytes is transferred to the
caller and no buffer is left cached; if the requested range stops strictly
short of the end, the decompressed buffer is retained for subsequent reads
and the caller gets a non-owning view. -/
theorem C3_amended (s : compressed_host_buffer_source) (dec : List Nat)
    (offset size : Nat) (hempty : s.decompressed_buffer = [])
    (hlen : dec.length < 2 ^ 64) (hoff : offset ≤ dec.length) :
    (dec.length ≤ offset + min size (dec.length - offset) →
      (s.host_read_buf dec offset size).1.owning = true ∧
      (s.host_read_buf dec offset size).2 = s) ∧
    (offset + min size (dec.length - offset) < dec.length →
      (s.host_read_buf dec offset size).1.owning = false ∧
      (s.host_read_buf dec offset size).2.decompressed_buffer = dec) := by
  have hadd : add64 offset (min size (dec.length - offset)) =
      offset + min size (dec.length - offset) := add64_eq (by omega)
  simp only [compressed_host_buffer_source.host_read_buf, hempty,
    List.isEmpty_nil, if_true, sub64_eq hoff hlen, hadd]
  constructor <;> intro hc
  · rw [if_pos hc]; exact ⟨rfl, rfl⟩
  · rw [if_neg (by omega)]; exact ⟨rfl, rfl⟩

/-- Witness for C3 amended: GZIP source over `[0, 0]` with empty cache,
oracle `[1, 2, 3]`, strict-prefix read `host_read(0, 2)`: the buffer is
retained and the view is non-owning. -/
theorem C3_amended_witness :
    ((mkSource [0, 0] compression_type.GZIP [1, 2, 3]).1).decompressed_buffer = [] ∧
      ([1, 2, 3] : List Nat).length < 2 ^ 64 ∧ 0 ≤ ([1, 2, 3] : List Nat).length ∧
      0 + min 2 (([1, 2, 3] : List Nat).length - 0) < ([1, 2, 3] : List Nat).length ∧
      ((((mkSource [0, 0] compression_type.GZIP [1, 2, 3]).1).host_read_buf
          [1, 2, 3] 0 2).1.owning = false ∧
        (((mkSource [0, 0] compression_type.GZIP [1, 2, 3]).1).host_read_buf
          [1, 2, 3] 0 2).2.decompressed_buffer = [1, 2, 3]) :=
  ⟨by decide, by decide, by decide, by decide,
    (C3_amended (mkSource [0, 0] compression_type.GZIP [1, 2, 3]).1 [1, 2, 3] 0 2
        (by decide) (by decide) (by decide)).2 (by decide)⟩

/-- C4 counterexample: after a partial buffer-returning read has populated
the materialized buffer (so it is non-empty), a raw-pointer `host_read`
still invokes the decompression primitive (read_json.hpp:96 decompresses
unconditionally), refuting "no further decompression occurs once the
materialized buffer is non-empty" for "either overload". -/
theorem C4_counterexample :
    ¬ (((((mkSource [0] compression_type.GZIP [1, 2]).1.host_read_buf
              [1, 2] 0 1).2).decompressed_buffer ≠ [] →
        ((((mkSource [0] compression_type.GZIP [1, 2]).1.host_read_buf
              [1, 2] 0 1).2).host_read_ptr [1, 2] 0 1).decompressCalls = 0)) := by
  decide

/-- C4 amended: once the materialized buffer is non-empty, every subsequent
buffer-returning `host_read` reuses it — no decompression call, state
unchanged — but the raw-pointer overload invokes the decompression primitive
exactly once on every call, cached buffer or not. -/
theorem C4_amended (s : compressed_host_buffer_source) (dec : List Nat)
    (offset size : Nat) (h : s.decompressed_buffer ≠ []) :
    (s.host_read_buf dec offset size).1.decompressCalls = 0 ∧
    (s.host_read_buf dec offset size).2 = s ∧
    (s.host_read_ptr dec offset size).decompressCalls = 1 := by
  have hne : s.decompressed_buffer.isEmpty = false := by
    simpa [List.isEmpty_iff] using h
  simp [compressed_host_buffer_source.host_read_buf,
    compressed_host_buffer_source.host_read_ptr, hne]

/-- Witness for C4 amended: the state reached after a partial read cached
`[1, 2]`; a further buffer read makes 0 decompression calls and leaves the
state unchanged, while the raw-pointer overload makes 1. -/
theorem C4_amended_witness :
    ((((mkSource [0] compression_type.GZIP [1, 2]).1.host_read_buf
          [1, 2] 0 1).2).decompressed_buffer ≠ [] ∧
      (((((mkSource [0] compression_type.GZIP [1, 2]).1.host_read_buf
              [1, 2] 0 1).2).host_read_buf [1, 2] 1 1).1.decompressCalls = 0 ∧
        ((((mkSource [0] compression_type.GZIP [1, 2]).1.host_read_buf
              [1, 2] 0 1).2).host_read_buf [1, 2] 1 1).2 =
          (((mkSource [0] compression_type.GZIP [1, 2]).1.host_read_buf
              [1, 2] 0 1).2) ∧
        ((((mkSource [0] compression_type.GZIP [1, 2]).1.host_read_buf
              [1, 2] 0 1).2).host_read_ptr [1, 2] 1 1).decompressCalls = 1)) :=
  ⟨by decide,
    C4_amended (((mkSource [0] compression_type.GZIP [1, 2]).1.host_read_buf
        [1, 2] 0 1).2) [1, 2] 1 1 (by decide)⟩

/-- C7: the quote-normalization transducer is the identity on already-strict
JSON: on every input buffer with no single-quote byte the output is
byte-identical to the input, hence running the transducer twice equals
running it once. -/
theorem C7_identity_on_strict_json (input : List Nat) (h : squoteByte ∉ input) :
    normalize_quotes input = input ∧
    normalize_quotes (normalize_quotes input) = normalize_quotes input := by
  have h' : ∀ c ∈ input, c ≠ squoteByte := fun c hc he => h (he ▸ hc)
  have hid : normalize_quotes input = input :=
    fstRun_no_squote input FstState.outsideString (Or.inl rfl) h'
  refine ⟨hid, ?_⟩
  rw [hid]; exact hid

/-- Witness for C7 on the strict-JSON bytes of `{"A"}`-like input
`[123, 34, 65, 34, 125]`, which contain no single quote. -/
theorem C7_identity_witness :
    squoteByte ∉ ([123, 34, 65, 34, 125] : List Nat) ∧
      (normalize_quotes [123, 34, 65, 34, 125] = [123, 34, 65, 34, 125] ∧
        normalize_quotes (normalize_quotes [123, 34, 65, 34, 125]) =
          normalize_quotes [123, 34, 65, 34, 125]) :=
  ⟨by decide, C7_identity_on_strict_json [123, 34, 65, 34, 125] (by decide)⟩

/-- C8: for every ordered list of sources and requested logical range,
`ingest_raw_input` returns a span whose size equals the number of content
bytes drawn from the concatenated logical stream over the range plus one
record-delimiter byte per source boundary falling strictly inside the range
— so it may exceed the nominal requested length by exactly the number of
inserted delimiters. -/
theorem C8_ingest_raw_input_size (delim : Nat) (sources : List (List Nat))
    (range_offset range_size : Nat) :
    (ingest_raw_input delim sources range_offset range_size).length =
      ((sources.flatten.drop range_offset).take range_size).length +
        countBoundaries sources range_offset (range_offset + range_size) := by
  unfold ingest_raw_input countBoundaries
  rw [ingestAux_length]
  simp only [List.length_take, List.length_drop, Nat.zero_add]
  omega

/-- C10: the two host_read overloads are observationally equivalent: whenever
the materialized buffer is either still empty or holds the decompressed
content, and the offset does not exceed the exact decompressed length, the
byte count returned by the raw-pointer overload equals the size of the buffer
returned by the buffer-returning overload, and the copied bytes equal that
buffer's bytes — whether the latter serves a fresh decompression or the
cached buffer. -/
theorem C10_overloads_equivalent (s : compressed_host_buffer_source)
    (dec : List Nat) (offset size : Nat)
    (hinv : s.decompressed_buffer = [] ∨ s.decompressed_buffer = dec)
    (hlen : dec.length < 2 ^ 64) (hoff : offset ≤ dec.length) :
    (s.host_read_ptr dec offset size).count =
      ((s.host_read_buf dec offset size).1.data).length ∧
    (s.host_read_ptr dec offset size).dst =
      (s.host_read_buf dec offset size).1.data := by
  have hdata : (s.host_read_buf dec offset size).1.data =
      (dec.drop offset).take (min size (sub64 dec.length offset)) := by
    rcases hinv with he | hfull
    · simp only [compressed_host_buffer_source.host_read_buf, he]
      split_ifs <;> first | rfl | simp_all
    · simp only [compressed_host_buffer_source.host_read_buf, hfull]
      split_ifs <;> rfl
  constructor
  · rw [hdata]
    simp only [compressed_host_buffer_source.host_read_ptr, List.length_take,
      List.length_drop]
    rw [sub64_eq hoff hlen]
    omega
  · rw [hdata]; rfl

/-- Witness for C10: a GZIP source with empty cache, oracle `[1, 2]`,
`host_read(1, 5)` through both overloads. -/
theorem C10_overloads_witness :
    (((mkSource [0] compression_type.GZIP [1, 2]).1).decompressed_buffer = [] ∨
      ((mkSource [0] compression_type.GZIP [1, 2]).1).decompressed_buffer = [1, 2]) ∧
      ([1, 2] : List Nat).length < 2 ^ 64 ∧ 1 ≤ ([1, 2] : List Nat).length ∧
      ((((mkSource [0] compression_type.GZIP [1, 2]).1).host_read_ptr
            [1, 2] 1 5).count =
          ((((mkSource [0] compression_type.GZIP [1, 2]).1).host_read_buf
              [1, 2] 1 5).1.data).length ∧
        (((mkSource [0] compression_type.GZIP [1, 2]).1).host_read_ptr
            [1, 2] 1 5).dst =
          (((mkSource [0] compression_type.GZIP [1, 2]).1).host_read_buf
            [1, 2] 1 5).1.data) :=
  ⟨by decide, by decide, by decide,
    C10_overloads_equivalent (mkSource [0] compression_type.GZIP [1, 2]).1
      [1, 2] 1 5 (by decide) (by decide) (by decide)⟩

end CudfJsonRead
